import Mathlib

/-!
Shallow embedding of `src/src/ui/lp-render.ts` (the live-preview conceal/reveal
reconciliation layer).  The file contains two revisions of the module; the later
revision (the one defining `updateTree` with the per-line inline-field loop,
`addFieldDecorator`, `createFieldDecoratorSourceMode`, `queryRenderInfo` and
`createQueryWidget`) is the authority here, and the earlier revision's gated
`inlineQueryRender` is embedded as well where a claim refers to it.

Strings are embedded as `List Char` so that every operation is structurally
computable; document positions are `Int` (CodeMirror offsets are JS numbers and
the code forms `node.from - 1`).  External collaborators (field scanner,
expression parser, execution engine, JS eval) are parameters of the
environment, returning `Result` values: in the source every call to them is
wrapped in `tryOrPropogate` or `try/catch`, so a total `Result`-valued function
is the faithful boundary.
-/

namespace LPRender

abbrev Str := List Char

/-- JavaScript `String.prototype.startsWith`. -/
def strStartsWith (s p : Str) : Bool := p.isPrefixOf s

/-- JavaScript `String.prototype.includes` (substring search). -/
def strIncludes (needle : Str) : Str → Bool
  | [] => needle.isPrefixOf ([] : Str)
  | c :: rest => needle.isPrefixOf (c :: rest) || strIncludes needle rest

/-- JavaScript `String.prototype.trim`. -/
def jsTrim (s : Str) : Str :=
  ((s.dropWhile Char.isWhitespace).reverse.dropWhile Char.isWhitespace).reverse

/-- CodeMirror `state.sliceDoc(a, b)` / `doc.sliceString(a, b)` on the document. -/
def sliceDoc (doc : Str) (a b : Int) : Str := (doc.take b.toNat).drop a.toNat

/-- One range of the editor selection (`EditorSelection.ranges` entry). -/
structure SelRange where
  rFrom : Int
  rTo : Int
deriving DecidableEq

/-- Embeds `selectionAndRangeOverlap` from lp-render.ts: true iff some selection
range `r` satisfies `r.from <= rangeTo && r.to >= rangeFrom`. -/
def selectionAndRangeOverlap (selection : List SelRange) (rangeFrom rangeTo : Int) : Bool :=
  selection.any (fun r => decide (r.rFrom ≤ rangeTo) && decide (r.rTo ≥ rangeFrom))

/-- Embeds the `DataviewSettings` fields read by lp-render.ts. -/
structure DataviewSettings where
  inlineQueryPrefix : Str
  inlineJsQueryPrefix : Str
  enableInlineDataview : Bool
  enableInlineDataviewJs : Bool
  inlineFieldDisplayMode : Str

/-- Embeds the `FullIndex` collaborator: only its `initialized` flag is read. -/
structure FullIndex where
  initialized : Bool

/-- Modelled from the spec: `InlineField` comes from `data-import/inline-field`,
which is not part of the corpus.  Per the spec's data model a FieldSpan is
`{start, startValue, end, wrapping}` with derived `key`/`value` substrings;
`wrapping` is a string (`"("`, `"["`, `"emoji-shorthand"`) or a non-string
marker for full-line fields (the code tests `typeof field.wrapping === "string"`),
embedded as `Option Str` with `none` for full-line. -/
structure InlineField where
  start : Int
  startValue : Int
  fieldEnd : Int
  wrapping : Option Str
  key : Str
  value : Str

/-- One document line (`view.state.doc.line(i)`): its start offset and text. -/
structure Line where
  lineFrom : Int
  text : Str

/-- One syntax-tree node as iterated by `syntaxTree(...).iterate`: its range and
the split token-class properties (`node.type.prop(tokenClassNodeProp)?.split(" ")`). -/
structure QNode where
  nFrom : Int
  nTo : Int
  props : List Str

/-- Result type of the external parsing/execution collaborators
(`tryOrPropogate` wraps their exceptions into an unsuccessful result). -/
inductive Result (α : Type) where
  | success (value : α)
  | failure (error : Str)
deriving DecidableEq

/-- Content state of a widget's HTML element: a predefined literal string
(`el.innerText = result`), a value handed to `renderValue`, or deferred filling
by an awaited JS promise. -/
inductive ElText where
  | literal (s : Str)
  | rendered (v : Str)
  | deferred
deriving DecidableEq

/-- The HTML element carried by an inline widget. -/
structure El where
  classes : List Str
  text : ElText
deriving DecidableEq

/-- Embeds `InlineWidget` (the final revision's widget class): computed CSS
classes, the raw source string used by `eq`, and its element. -/
structure InlineWidget where
  cssClasses : List Str
  sourceString : Str
  el : El
deriving DecidableEq

/-- A decoration value: `Decoration.mark` (tag, class, inclusive flag) or
`Decoration.replace` with an inline widget (`inclusive: false, block: false`). -/
inductive DecoValue where
  | mark (tagName : Str) (cls : Str) (inclusive : Bool)
  | replace (widget : InlineWidget)
deriving DecidableEq

/-- Whether a decoration value is a Replace-decoration. -/
def DecoValue.isReplace : DecoValue → Bool
  | .replace _ => true
  | .mark _ _ _ => false

/-- A ranged decoration as held in the Decoration Store. -/
structure Deco where
  dFrom : Int
  dTo : Int
  value : DecoValue
deriving DecidableEq

/-- The Decoration Store (CodeMirror `DecorationSet`), position-ordered. -/
abbrev Store := List Deco

/-- RangeSet touch test: decoration `d` touches `[a, b]` iff
`d.from <= b && d.to >= a` (inclusive on both ends), the region iterated by
`decorations.between(a, b, ...)`. -/
def decoTouches (d : Deco) (a b : Int) : Bool :=
  decide (d.dFrom ≤ b) && decide (d.dTo ≥ a)

/-- Embeds `decorations.between(a, b, f)`: the sub-list of decorations touching
`[a, b]`, in store order. -/
def between (S : Store) (a b : Int) : Store := S.filter (fun d => decoTouches d a b)

/-- Embeds `decorations.update({filterFrom, filterTo, filter: () => false})`:
every decoration touching the filter window is dropped, decorations outside it
are kept. -/
def updateFilter (S : Store) (filterFrom filterTo : Int) : Store :=
  S.filter (fun d => !(decoTouches d filterFrom filterTo))

/-- Existence check used by the `add*Decorator` functions: whether any
decoration touches `[a, b]`. -/
def storeHasBetween (S : Store) (a b : Int) : Bool :=
  S.any (fun d => decoTouches d a b)

/-- Sorted insertion of one decoration (RangeSet keeps entries sorted by start
offset; `update({add, sort: true})` sorts the additions in). -/
def insertSorted : Store → Deco → Store
  | [], d => [d]
  | e :: rest, d => if d.dFrom < e.dFrom then d :: e :: rest else e :: insertSorted rest d

/-- Embeds `decorations.update({add: new, ...})`: each added decoration is
merged into the sorted store. -/
def updateAdd (S : Store) (new : List Deco) : Store := new.foldl insertSorted S

/-- Embeds `removeQueryDecorator(node)`: iterate the decorations touching
`[node.from - 1, node.to + 1]` in the store as it was at the call, and for each
one filter the (evolving) store with that decoration's own range as the window. -/
def removeQueryDecorator (S : Store) (node : QNode) : Store :=
  (between S (node.nFrom - 1) (node.nTo + 1)).foldl
    (fun acc d => updateFilter acc d.dFrom d.dTo) S

/-- Embeds `removeFieldDecorator(line, field)`: same removal shape over
`[line.from + field.start, line.from + field.end]`. -/
def removeFieldDecorator (S : Store) (line : Line) (field : InlineField) : Store :=
  (between S (line.lineFrom + field.start) (line.lineFrom + field.fieldEnd)).foldl
    (fun acc d => updateFilter acc d.dFrom d.dTo) S

/-- The ambient state the plugin reads during one reconciliation pass: plugin
settings, page index, document snapshot, selection, live-preview flag, active
file, the visible lines and syntax-tree nodes, and the external collaborators
(field scanner, expression parser, inline execution engine, JS evaluator). -/
structure Env where
  settings : DataviewSettings
  index : FullIndex
  doc : Str
  selection : List SelRange
  livepreview : Bool
  currentFile : Option Str
  lines : List Line
  nodes : List QNode
  extractInlineFields : Str → List InlineField
  extractFullLineField : Str → Option InlineField
  parseField : Str → Result Str
  executeInline : Str → Str → Result Str
  evalJs : Str → Result Str

/-- Embeds `getCssClasses(props)`. -/
def getCssClasses (props : List Str) : List Str :=
  (if props.contains "strong".data then ["cm-strong".data] else [])
  ++ (if props.contains "em".data then ["cm-em".data] else [])
  ++ (if props.contains "highlight".data then ["cm-highlight".data] else [])
  ++ (if props.contains "strikethrough".data then ["cm-strikethrough".data] else [])
  ++ (if props.contains "comment".data then ["cm-comment".data] else [])

/-- The `PREAMBLE` constant prepended to JS query code. -/
def PREAMBLE : Str := "const dataview=this;const dv=this;".data

/-- Embeds `createQueryWidget(node, view, currentFile)` of the final revision:
the unclosed-inline-code guard, prefix classification, the feature-flag gate,
the expression pipeline (`parseField` then `executeInline`, each failure turned
into a literal error string on the element), and the JS pipeline (awaited code
deferred, synchronous code evaluated with errors caught into a literal error
string).  Returns the Replace-decoration ranged over
`[node.from - 1, node.to + 1]`, or `none` where the source returns early. -/
def createQueryWidget (env : Env) (node : QNode) (currentFile : Str) : Option Deco :=
  if sliceDoc env.doc node.nTo (node.nTo + 1) = ['\n'] then none
  else
    let text := sliceDoc env.doc node.nFrom node.nTo
    let isQuery := strStartsWith text env.settings.inlineQueryPrefix
    let isJsQuery := strStartsWith text env.settings.inlineJsQueryPrefix
    if !isQuery && !isJsQuery then none
    else
      let codeAndText : Str × ElText :=
        if isQuery && !env.settings.enableInlineDataview
            || isJsQuery && !env.settings.enableInlineDataviewJs then
          (([] : Str), ElText.literal "(disabled; enable in settings)".data)
        else if isQuery then
          let code := jsTrim (text.drop env.settings.inlineQueryPrefix.length)
          match env.parseField code with
          | Result.failure err =>
            (code, ElText.literal
              ("Dataview (inline field \x27".data ++ code ++ "\x27): ".data ++ err))
          | Result.success fieldValue =>
            match env.executeInline fieldValue currentFile with
            | Result.failure err =>
              (code, ElText.literal
                ("Dataview (for inline query \x27".data ++ fieldValue ++ "\x27): ".data ++ err))
            | Result.success v => (code, ElText.rendered v)
        else
          let code := jsTrim (text.drop env.settings.inlineJsQueryPrefix.length)
          if strIncludes "await".data code then (code, ElText.deferred)
          else
            match env.evalJs (PREAMBLE ++ code) with
            | Result.failure e =>
              (code, ElText.literal
                ("Dataview (for inline JS query \x27".data ++ code ++ "\x27): ".data ++ e))
            | Result.success v => (code, ElText.rendered v)
      some
        { dFrom := node.nFrom - 1
          dTo := node.nTo + 1
          value := DecoValue.replace
            { cssClasses := getCssClasses node.props
              sourceString := codeAndText.1
              el := { classes := ["dataview".data, "dataview-inline".data]
                      text := codeAndText.2 } } }

/-- Embeds `createFieldDecoratorLivePreview`: the body only logs
"Method not implemented." and returns the empty decoration list. -/
def createFieldDecoratorLivePreview (_env : Env) (_line : Line) (_field : InlineField) :
    List Deco := []

/-- Embeds `createFieldDecoratorSourceMode(view, line, field)`: position
arithmetic for bracket/colon/key/value regions (full-line fields collapse the
bracket positions), and the `Decoration.mark` list pushed in source order,
skipping empty key and empty value sub-spans. -/
def createFieldDecoratorSourceMode (env : Env) (line : Line) (field : InlineField) :
    List Deco :=
  let openBracketPos := line.lineFrom + field.start
  let keyPos0 := line.lineFrom + field.start + 1
  let colonPos := line.lineFrom + field.startValue - 2
  let valuePos := line.lineFrom + field.startValue
  let closeBracketPos0 := line.lineFrom + field.fieldEnd - 1
  let fieldEndPos := line.lineFrom + field.fieldEnd
  let keyPos := if field.wrapping.isSome then keyPos0 else openBracketPos
  let closeBracketPos := if field.wrapping.isSome then closeBracketPos0 else fieldEndPos
  let inline_or_fullline := if field.wrapping.isSome then "inline".data else "fullline".data
  let isRounded := field.wrapping == some "(".data
  let markBracket := fun (a b : Int) =>
    Deco.mk a b (DecoValue.mark "span".data
      "dataview source-mode-inline-field-bracket".data false)
  let markColon := fun (a b : Int) =>
    Deco.mk a b (DecoValue.mark "span".data
      ("dataview source-mode-".data ++ inline_or_fullline ++ "-field-colon".data) false)
  let markKey := fun (a b : Int) =>
    Deco.mk a b (DecoValue.mark "span".data
      ("dataview source-mode-".data ++ inline_or_fullline ++ "-field-key".data
        ++ (if isRounded then "-hidden".data else [])) true)
  let markValue := fun (a b : Int) =>
    Deco.mk a b (DecoValue.mark "span".data
      ("dataview source-mode-".data ++ inline_or_fullline ++ "-field".data
        ++ (if isRounded then "-standalone".data else []) ++ "-value".data) true)
  let _ := env
  [markColon colonPos valuePos]
  ++ (if field.wrapping.isSome then
        [markBracket openBracketPos keyPos, markBracket closeBracketPos fieldEndPos]
      else [])
  ++ (if keyPos ≠ colonPos then [markKey keyPos colonPos] else [])
  ++ (if valuePos ≠ closeBracketPos then [markValue valuePos closeBracketPos] else [])

/-- Embeds `addFieldDecorator(view, line, field)`: existence check over the
field span, active-file check, then insertion of the live-preview or
source-mode decorator output (`update({add: newDeco, sort: true})`). -/
def addFieldDecorator (env : Env) (S : Store) (line : Line) (field : InlineField) : Store :=
  if storeHasBetween S (line.lineFrom + field.start) (line.lineFrom + field.fieldEnd) then S
  else
    match env.currentFile with
    | none => S
    | some _ =>
      let newDeco :=
        if env.livepreview then createFieldDecoratorLivePreview env line field
        else createFieldDecoratorSourceMode env line field
      updateAdd S newDeco

/-- Embeds `addQueryDecorator(node, view)`: existence check over the widened
range, active-file check, widget creation, then insertion at
`[node.from - 1, node.to + 1]`. -/
def addQueryDecorator (env : Env) (S : Store) (node : QNode) : Store :=
  if storeHasBetween S (node.nFrom - 1) (node.nTo + 1) then S
  else
    match env.currentFile with
    | none => S
    | some file =>
      match createQueryWidget env node file with
      | none => S
      | some deco => updateAdd S [deco]

/-- Embeds `fieldRenderInfo(view, line, field).render` of the final revision:
`!(this.livepreview && isSelected)`. -/
def fieldRenderInfo (env : Env) (line : Line) (field : InlineField) : Bool :=
  let isSelected := selectionAndRangeOverlap env.selection
    (line.lineFrom + field.start) (line.lineFrom + field.fieldEnd)
  !(env.livepreview && isSelected)

/-- Embeds `isInlineQuery(view, start, end)`: the document slice starts with
the query prefix or the JS query prefix. -/
def isInlineQueryCheck (env : Env) (start stop : Int) : Bool :=
  let content := sliceDoc env.doc start stop
  strStartsWith content env.settings.inlineQueryPrefix
    || strStartsWith content env.settings.inlineJsQueryPrefix

/-- Render decision for a node, as returned by `queryRenderInfo`. -/
structure RenderInfo where
  render : Bool
  isQuery : Bool
deriving DecidableEq

/-- Embeds `queryRenderInfo(view, node)`: inline-code property present,
formatting property absent, prefix recognized; render iff that holds and the
selection does not overlap `[node.from - 1, node.to + 1]`. -/
def queryRenderInfo (env : Env) (node : QNode) : RenderInfo :=
  let isSelected := selectionAndRangeOverlap env.selection (node.nFrom - 1) (node.nTo + 1)
  let isInlineQuery :=
    node.props.contains "inline-code".data
    && !(node.props.contains "formatting".data)
    && isInlineQueryCheck env node.nFrom node.nTo
  { render := isInlineQuery && !isSelected, isQuery := isInlineQuery }

/-- One step of the field loop body in `updateTree`: remove the field's
decorations when it should not render, add them when it should. -/
def processField (env : Env) (line : Line) (S : Store) (field : InlineField) : Store :=
  if !(fieldRenderInfo env line field) then removeFieldDecorator S line field
  else addFieldDecorator env S line field

/-- The per-line field list of `updateTree`: `extractInlineFields(line.text)`,
falling back to `[extractFullLineField(line.text) ?? null]` when empty. -/
def lineFieldsList (env : Env) (line : Line) : List (Option InlineField) :=
  let fields := (env.extractInlineFields line.text).map some
  if fields.length = 0 then [env.extractFullLineField line.text] else fields

/-- The field loop of `updateTree` over one line's field list, stopping at the
first `null` entry (`if (!field) break`). -/
def processFields (env : Env) (line : Line) : Store → List (Option InlineField) → Store
  | S, [] => S
  | S, none :: _ => S
  | S, some f :: rest => processFields env line (processField env line S f) rest

/-- Field handling of `updateTree` for one visible line. -/
def processLine (env : Env) (S : Store) (line : Line) : Store :=
  processFields env line S (lineFieldsList env line)

/-- The query branch of `updateTree`'s tree iteration for one node
(`const { render, isQuery } = this.queryRenderInfo(view, node)`). -/
def processQueryNode (env : Env) (S : Store) (node : QNode) : Store :=
  if !(queryRenderInfo env node).render && (queryRenderInfo env node).isQuery then
    removeQueryDecorator S node
  else if (queryRenderInfo env node).render then addQueryDecorator env S node
  else S

/-- Embeds `updateTree(view)` of the final revision: first the inline-field
loop over the visible lines, then (only in live preview: `if
(!this.livepreview) return`) the inline-query tree iteration over the visible
nodes. -/
def updateTree (env : Env) (S : Store) : Store :=
  if !env.livepreview then env.lines.foldl (processLine env) S
  else env.nodes.foldl (processQueryNode env) (env.lines.foldl (processLine env) S)

/-- Endpoint-wise position mapping of the store through a document change
(`this.decorations.map(update.changes)`), abstracted as a function on offsets. -/
def mapDecos (f : Int → Int) (S : Store) : Store :=
  S.map (fun d => { d with dFrom := f d.dFrom, dTo := f d.dTo })

/-- Which change channels an editor update event carries. -/
structure UpdateFlags where
  docChanged : Bool
  selectionSet : Bool
  viewportChanged : Bool

/-- Embeds `update(update)` of the final revision: document changes map the
store through the change set then run `updateTree`; selection changes run
`updateTree`; viewport changes reset the store to `Decoration.none` and run
`updateTree`; otherwise the store is untouched. -/
def update (env : Env) (changes : Int → Int) (flags : UpdateFlags) (S : Store) : Store :=
  if flags.docChanged then updateTree env (mapDecos changes S)
  else if flags.selectionSet then updateTree env S
  else if flags.viewportChanged then updateTree env []
  else S

/-- Embeds the plugin constructor of the final revision: the store starts as
`Decoration.none` and `updateTree` runs once. -/
def construct (env : Env) : Store := updateTree env []

/-- Decoration Stores reachable from plugin construction by any sequence of
update events; document changes are modelled as monotone offset maps. -/
inductive Reach : Store → Prop where
  | init (env : Env) : Reach (construct env)
  | step (env : Env) (changes : Int → Int) (flags : UpdateFlags) (S : Store)
      (hmono : ∀ x y : Int, x ≤ y → changes x ≤ changes y) :
      Reach S → Reach (update env changes flags S)

/-- Embeds the earlier revision's `inlineQueryRender(view)` widget collection
loop (the from-scratch path used by its constructor and viewport branch). -/
def inlineQueryRenderWidgets (env : Env) (currentFile : Str) : List Deco :=
  env.nodes.foldl
    (fun ws node =>
      if !(queryRenderInfo env node).render then ws
      else
        match createQueryWidget env node currentFile with
        | none => ws
        | some w => ws ++ [w])
    []

/-- Embeds the earlier revision's `inlineQueryRender(view)`: `none` when the
index is not initialized or there is no active file, else the sorted
decoration set of the collected widgets (`Decoration.set(widgets, true)`). -/
def inlineQueryRender (env : Env) : Option Store :=
  if !env.index.initialized then none
  else
    match env.currentFile with
    | none => none
    | some file => some (updateAdd [] (inlineQueryRenderWidgets env file))

/-- Whether decoration `d` fully covers the span `[s, e]`. -/
def decoCovers (d : Deco) (s e : Int) : Bool :=
  decide (d.dFrom ≤ s) && decide (e ≤ d.dTo)

/-- One iteration of the class-patch loop inside `InlineWidget.eq(other)`
against class list `A` (= `this.cssClasses`): a class `v` of `other.cssClasses`
not contained in `A` is removed from the element's classes (DOM classList
removal), a class contained in `A` is added (classList addition). -/
def patchStep (A : List Str) (el : List Str) (v : Str) : List Str :=
  if !(A.contains v) then el.filter (fun c => !(c == v))
  else if el.contains v then el else el ++ [v]

/-- Embeds `InlineWidget.eq(other)` of the final revision: equality holds iff
the `sourceString`s match, and in that case the class-patch loop runs over
`other.cssClasses` against `this.el`; the pair returned is the equality result
and the element's class list afterwards. -/
def widgetEq (this other : InlineWidget) : Bool × List Str :=
  if this.sourceString = other.sourceString then
    (true, other.cssClasses.foldl (patchStep this.cssClasses) this.el.classes)
  else (false, this.el.classes)

/-! ### Helper lemmas about the store operations -/

/-- Sequentially filtering a store with one window per list entry equals one
filter by the conjunction of the windows. -/
theorem foldl_updateFilter (L : List Deco) (S : Store) :
    L.foldl (fun acc d => updateFilter acc d.dFrom d.dTo) S
      = S.filter (fun r => L.all (fun d => !(decoTouches r d.dFrom d.dTo))) := by
  induction L generalizing S with
  | nil => simp [updateFilter]
  | cons d L ih =>
    rw [List.foldl_cons, ih, updateFilter, List.filter_filter]
    congr 1
    funext r
    simp [List.all_cons, Bool.and_comm]

/-- All-over-a-filter turned into a negated existence test over the base list. -/
theorem all_filter_not_any {α : Type} (p q : α → Bool) (S : List α) :
    (S.filter p).all (fun d => !(q d)) = !(S.any (fun d => p d && q d)) := by
  induction S with
  | nil => rfl
  | cons a t ih =>
    by_cases h : p a = true
    · simp [List.filter_cons, h, ih]
    · simp only [Bool.not_eq_true] at h
      simp [List.filter_cons, h, ih]

/-- Closed form of `removeQueryDecorator`: a decoration survives iff no store
decoration both touches the widened interval and touches it. -/
theorem removeQueryDecorator_filter (S : Store) (n : QNode) :
    removeQueryDecorator S n
      = S.filter (fun r => !(S.any (fun d =>
          decoTouches d (n.nFrom - 1) (n.nTo + 1) && decoTouches r d.dFrom d.dTo))) := by
  rw [removeQueryDecorator, foldl_updateFilter]
  congr 1
  funext r
  rw [between, all_filter_not_any]

/-- Closed form of `removeFieldDecorator`, same shape over the field span. -/
theorem removeFieldDecorator_filter (S : Store) (line : Line) (field : InlineField) :
    removeFieldDecorator S line field
      = S.filter (fun r => !(S.any (fun d =>
          decoTouches d (line.lineFrom + field.start) (line.lineFrom + field.fieldEnd)
            && decoTouches r d.dFrom d.dTo))) := by
  rw [removeFieldDecorator, foldl_updateFilter]
  congr 1
  funext r
  rw [between, all_filter_not_any]

/-- In a store of well-formed ranges, nothing touching the removal interval
survives a removal (each touched decoration is its own filter window). -/
theorem removal_clears_touching (S : Store) (a b : Int)
    (hwf : ∀ d ∈ S, d.dFrom ≤ d.dTo) :
    (S.filter (fun r => !(S.any (fun d =>
        decoTouches d a b && decoTouches r d.dFrom d.dTo)))).filter
      (fun d => decoTouches d a b) = [] := by
  rw [List.filter_filter, List.filter_eq_nil_iff]
  intro r hr h
  rw [Bool.and_eq_true] at h
  obtain ⟨htouch, hbig⟩ := h
  rw [Bool.not_eq_true', List.any_eq_false] at hbig
  have hself := hbig r hr
  have hwfr := hwf r hr
  simp only [decoTouches, Bool.and_eq_true, decide_eq_true_eq] at hself htouch
  exact hself ⟨⟨htouch.1, htouch.2⟩, hwfr, hwfr⟩

/-! ### Concrete fixtures used by witnesses and counterexamples -/

/-- Default-like settings: `inlineQueryPrefix = "="`, `inlineJsQueryPrefix = "$="`,
both inline features enabled. -/
def settings0 : DataviewSettings :=
  { inlineQueryPrefix := "=".data, inlineJsQueryPrefix := "$=".data,
    enableInlineDataview := true, enableInlineDataviewJs := true,
    inlineFieldDisplayMode := "minimal".data }

/-- A base environment: live preview, initialized index, an active file, no
visible lines or nodes, trivial external collaborators. -/
def env0 : Env :=
  { settings := settings0, index := { initialized := true },
    doc := "aaaaaaaaaa=1 aaaaaaa=2bc".data,
    selection := [{ rFrom := 24, rTo := 24 }], livepreview := true,
    currentFile := some "f.md".data, lines := [], nodes := [],
    extractInlineFields := fun _ => [], extractFullLineField := fun _ => none,
    parseField := fun c => Result.success c,
    executeInline := fun _ _ => Result.success "4".data,
    evalJs := fun _ => Result.success "9".data }

/-- Two visible inline-code query nodes over `env0`'s document: `=1` at
`[10, 13]` (widened `[9, 14]`) and `=2b` at `[20, 23]` (widened `[19, 24]`);
the caret at 24 overlaps only the second. -/
def envTwoNodes : Env :=
  { env0 with nodes := [{ nFrom := 10, nTo := 13, props := ["inline-code".data] },
                        { nFrom := 20, nTo := 23, props := ["inline-code".data] }] }

/-- A stale decoration at `[14, 20]`: it touches the first node's widened range
`[9, 14]` and the second node's widened range `[19, 24]`. -/
def staleStore : Store :=
  [{ dFrom := 14, dTo := 20, value := DecoValue.mark "span".data "x".data false }]

/-! ### C9 -/

/-- C9: `selectionAndRangeOverlap(selection, from, to)` returns true iff some
selection range `r` satisfies `r.from ≤ to` and `r.to ≥ from`, i.e. some range
intersects `[from, to]` inclusively on both ends; with no such range it
returns false. -/
theorem c9_selection_overlap_contract (selection : List SelRange) (a b : Int) :
    selectionAndRangeOverlap selection a b = true
      ↔ ∃ r ∈ selection, r.rFrom ≤ b ∧ r.rTo ≥ a := by
  simp [selectionAndRangeOverlap, List.any_eq_true]

/-! ### C6 -/

/-- C6: in live-preview mode the field render decision is exactly the negated
selection overlap with `[lineStart + span.start, lineStart + span.end]`; in
source-display mode the decision is true regardless of the selection. -/
theorem c6_field_reveal_decision (env : Env) (line : Line) (field : InlineField) :
    (env.livepreview = true →
      fieldRenderInfo env line field
        = !(selectionAndRangeOverlap env.selection
            (line.lineFrom + field.start) (line.lineFrom + field.fieldEnd)))
    ∧ (env.livepreview = false → fieldRenderInfo env line field = true) := by
  constructor <;> intro h <;> simp [fieldRenderInfo, h]

/-- Witness for C6 at a concrete environment, in both modes. -/
theorem c6_witness :
    (fieldRenderInfo env0 { lineFrom := 0, text := [] }
        { start := 0, startValue := 4, fieldEnd := 6, wrapping := some "[".data,
          key := "k".data, value := "v".data }
      = !(selectionAndRangeOverlap env0.selection 0 6))
    ∧ (fieldRenderInfo { env0 with livepreview := false } { lineFrom := 0, text := [] }
        { start := 0, startValue := 4, fieldEnd := 6, wrapping := some "[".data,
          key := "k".data, value := "v".data }
      = true) :=
  ⟨(c6_field_reveal_decision env0 _ _).1 rfl,
   (c6_field_reveal_decision { env0 with livepreview := false } _ _).2 rfl⟩

/-! ### C5 -/

/-- C5: when the character immediately after the node is a newline,
`createQueryWidget` returns without creating a widget, and consequently
`addQueryDecorator` leaves the store unchanged (no decoration inserted, no
error rendered). -/
theorem c5_unterminated_guard (env : Env) (node : QNode) (file : Str)
    (h : sliceDoc env.doc node.nTo (node.nTo + 1) = ['\n']) :
    createQueryWidget env node file = none
      ∧ ∀ S : Store, addQueryDecorator env S node = S := by
  refine ⟨by simp [createQueryWidget, h], ?_⟩
  intro S
  unfold addQueryDecorator
  split
  · rfl
  · cases henv : env.currentFile with
    | none => rfl
    | some f => simp [createQueryWidget, h]

/-- Witness for C5: concrete document `"aaaaaaaaaa=1\nzz"` with an inline-code
node `[10, 12]` followed by a newline. -/
theorem c5_witness :
    createQueryWidget { env0 with doc := "aaaaaaaaaa=1\nzz".data }
        { nFrom := 10, nTo := 12, props := ["inline-code".data] } "f.md".data = none
      ∧ ∀ S : Store,
          addQueryDecorator { env0 with doc := "aaaaaaaaaa=1\nzz".data } S
            { nFrom := 10, nTo := 12, props := ["inline-code".data] } = S :=
  c5_unterminated_guard _ _ _ (by decide)

/-! ### C3 -/

/-- C3 counterexample: with the stale decoration `[14, 20]` in the store and
the two query nodes of `envTwoNodes` (caret at 24), running the
selection-change reconciliation pass twice on the unchanged document,
selection and viewport does not reproduce the store of the first pass: the
first pass declines to insert the first node's widget (the stale decoration
touches its widened range) and then removes the stale decoration, so the
second pass inserts a widget the first pass's result lacks. -/
theorem c3_counterexample :
    update envTwoNodes id { docChanged := false, selectionSet := true, viewportChanged := false }
        (update envTwoNodes id
          { docChanged := false, selectionSet := true, viewportChanged := false } staleStore)
      ≠ update envTwoNodes id
          { docChanged := false, selectionSet := true, viewportChanged := false } staleStore := by
  decide

/-- C3 amended: the viewport-changed path rebuilds the store from
`Decoration.none`, so two sequential viewport-changed events over an unchanged
visible range always yield identical decoration sets, whatever the starting
store (the incremental document/selection path is not idempotent in general,
see the counterexample). -/
theorem c3_viewport_idempotent (env : Env) (changes changes2 : Int → Int) (S : Store) :
    update env changes2 { docChanged := false, selectionSet := false, viewportChanged := true }
        (update env changes
          { docChanged := false, selectionSet := false, viewportChanged := true } S)
      = update env changes
          { docChanged := false, selectionSet := false, viewportChanged := true } S := rfl

/-! ### C10 -/

/-- C10 counterexample: store `{[0, 10], [0, 2]}`, query node `[9, 11]`
(removal interval `[8, 12]`).  The decoration `[0, 2]` does not intersect
`[8, 12]`, yet removal deletes it too, because the touched decoration
`[0, 10]` becomes a filter window that covers it. -/
theorem c10_counterexample :
    decoTouches { dFrom := 0, dTo := 2, value := DecoValue.mark "m".data "b".data false } 8 12
        = false
      ∧ ({ dFrom := 0, dTo := 2, value := DecoValue.mark "m".data "b".data false } : Deco)
          ∈ ([{ dFrom := 0, dTo := 10, value := DecoValue.mark "m".data "a".data false },
              { dFrom := 0, dTo := 2, value := DecoValue.mark "m".data "b".data false }] : Store)
      ∧ removeQueryDecorator
          [{ dFrom := 0, dTo := 10, value := DecoValue.mark "m".data "a".data false },
           { dFrom := 0, dTo := 2, value := DecoValue.mark "m".data "b".data false }]
          { nFrom := 9, nTo := 11, props := [] } = [] := by
  decide

/-- C10 amended: removal works by range intersection through one filter window
per touched decoration: after `removeQueryDecorator(node)` no decoration
intersecting `[node.from - 1, node.to + 1]` remains (in a store of well-formed
ranges), and a decoration survives iff no store decoration both intersects the
interval and intersects it — so a decoration outside the interval is removed
exactly when it intersects the range of a touched decoration.  The same holds
for `removeFieldDecorator` over `[line.from + field.start, line.from + field.end]`. -/
theorem c10_removal_by_range_intersection :
    (∀ (S : Store) (n : QNode),
      removeQueryDecorator S n
        = S.filter (fun r => !(S.any (fun d =>
            decoTouches d (n.nFrom - 1) (n.nTo + 1) && decoTouches r d.dFrom d.dTo))))
    ∧ (∀ (S : Store) (n : QNode), (∀ d ∈ S, d.dFrom ≤ d.dTo) →
        (removeQueryDecorator S n).filter
          (fun d => decoTouches d (n.nFrom - 1) (n.nTo + 1)) = [])
    ∧ (∀ (S : Store) (line : Line) (field : InlineField),
        removeFieldDecorator S line field
          = S.filter (fun r => !(S.any (fun d =>
              decoTouches d (line.lineFrom + field.start) (line.lineFrom + field.fieldEnd)
                && decoTouches r d.dFrom d.dTo))))
    ∧ (∀ (S : Store) (line : Line) (field : InlineField), (∀ d ∈ S, d.dFrom ≤ d.dTo) →
        (removeFieldDecorator S line field).filter
          (fun d => decoTouches d (line.lineFrom + field.start)
            (line.lineFrom + field.fieldEnd)) = []) := by
  refine ⟨removeQueryDecorator_filter, ?_, removeFieldDecorator_filter, ?_⟩
  · intro S n hwf
    rw [removeQueryDecorator_filter]
    exact removal_clears_touching S _ _ hwf
  · intro S line field hwf
    rw [removeFieldDecorator_filter]
    exact removal_clears_touching S _ _ hwf

/-- Witness for C10 at a concrete store and node. -/
theorem c10_witness :
    (removeQueryDecorator staleStore { nFrom := 10, nTo := 13, props := [] }
        = staleStore.filter (fun r => !(staleStore.any (fun d =>
            decoTouches d 9 14 && decoTouches r d.dFrom d.dTo))))
    ∧ (removeQueryDecorator staleStore { nFrom := 10, nTo := 13, props := [] }).filter
        (fun d => decoTouches d 9 14) = [] := by
  constructor
  · exact c10_removal_by_range_intersection.1 staleStore _
  · exact c10_removal_by_range_intersection.2.1 staleStore
      { nFrom := 10, nTo := 13, props := [] } (by decide)

/-! ### C7 -/

/-- Membership after one patch step: for `v ∈ A` the class `v` is added, for
`v ∉ A` it is removed, all other classes are untouched. -/
theorem patchStep_mem (A el : List Str) (v c : Str) :
    c ∈ patchStep A el v ↔ (if v ∈ A then c ∈ el ∨ c = v else c ∈ el ∧ c ≠ v) := by
  unfold patchStep
  by_cases hA : v ∈ A
  · simp only [hA, if_true]
    rw [if_neg (by simp [hA])]
    by_cases hel : el.contains v = true
    · rw [if_pos hel]
      simp only [List.elem_iff] at hel
      constructor
      · exact fun h => Or.inl h
      · rintro (h | h)
        · exact h
        · exact h ▸ hel
    · rw [if_neg hel]
      simp
  · rw [if_pos (by simp [hA])]
    simp [hA, List.mem_filter, and_comm]

/-- Membership after the whole patch loop: a class ends up on the element iff
it is in both widgets' class lists, or it is absent from the looped-over list
and was on the element before. -/
theorem patchLoop_mem (A : List Str) (cs : List Str) (el0 : List Str) (c : Str) :
    c ∈ cs.foldl (patchStep A) el0
      ↔ ((c ∈ cs ∧ c ∈ A) ∨ (c ∉ cs ∧ c ∈ el0)) := by
  induction cs generalizing el0 with
  | nil => simp
  | cons v rest ih =>
    rw [List.foldl_cons, ih]
    by_cases hcv : c = v
    · subst hcv
      by_cases hA : c ∈ A <;> by_cases hr : c ∈ rest <;>
        simp [patchStep_mem, hA, hr, List.mem_cons]
    · by_cases hA : v ∈ A <;> simp [patchStep_mem, hA, hcv, List.mem_cons]

/-- C7 counterexample: two widgets with equal source strings but different
class sets are considered equal, yet the element does not end up carrying the
new widget's class set — a class only in `this.cssClasses` (`"cm-strong"`) is
never added to the element, and the base class `"dataview"` persists even
though neither widget's class list holds it. -/
theorem c7_counterexample :
    (widgetEq
        { cssClasses := ["cm-strong".data], sourceString := "x".data,
          el := { classes := ["dataview".data], text := ElText.literal [] } }
        { cssClasses := [], sourceString := "x".data,
          el := { classes := ["dataview".data], text := ElText.literal [] } }).1 = true
      ∧ (["cm-strong".data] : List Str) ≠ []
      ∧ "cm-strong".data ∉ (widgetEq
          { cssClasses := ["cm-strong".data], sourceString := "x".data,
            el := { classes := ["dataview".data], text := ElText.literal [] } }
          { cssClasses := [], sourceString := "x".data,
            el := { classes := ["dataview".data], text := ElText.literal [] } }).2 := by
  refine ⟨by decide, by decide, ?_⟩
  intro h
  simp [widgetEq, List.foldl] at h

/-- C7 amended: two inline widgets are considered equal (no DOM rebuild) iff
their raw source strings are equal; when they are equal, the element's class
list is patched in place so that afterwards a class is present iff it occurs
in both widgets' class lists, or it was already on the element and does not
occur in the other widget's class list — classes only in `this.cssClasses`
are not added, so the element need not end up with exactly the new widget's
class set. -/
theorem c7_widget_eq_and_patch (a b : InlineWidget) :
    ((widgetEq a b).1 = true ↔ a.sourceString = b.sourceString)
    ∧ (a.sourceString = b.sourceString →
        ∀ c : Str, c ∈ (widgetEq a b).2
          ↔ ((c ∈ b.cssClasses ∧ c ∈ a.cssClasses)
              ∨ (c ∉ b.cssClasses ∧ c ∈ a.el.classes))) := by
  constructor
  · unfold widgetEq
    split
    · simpa using by assumption
    · simpa using by assumption
  · intro h c
    unfold widgetEq
    rw [if_pos h]
    exact patchLoop_mem a.cssClasses b.cssClasses a.el.classes c

/-- Witness for C7 at concrete widgets with matching sources. -/
theorem c7_witness :
    ((widgetEq
        { cssClasses := ["cm-em".data], sourceString := "y".data,
          el := { classes := ["dataview".data], text := ElText.literal [] } }
        { cssClasses := ["cm-em".data], sourceString := "y".data,
          el := { classes := [], text := ElText.literal [] } }).1 = true
      ↔ ("y".data : Str) = "y".data)
    ∧ ("cm-em".data ∈ (widgetEq
        { cssClasses := ["cm-em".data], sourceString := "y".data,
          el := { classes := ["dataview".data], text := ElText.literal [] } }
        { cssClasses := ["cm-em".data], sourceString := "y".data,
          el := { classes := [], text := ElText.literal [] } }).2
      ↔ (("cm-em".data ∈ (["cm-em".data] : List Str) ∧ "cm-em".data ∈ (["cm-em".data] : List Str))
          ∨ ("cm-em".data ∉ (["cm-em".data] : List Str)
              ∧ "cm-em".data ∈ (["dataview".data] : List Str)))) :=
  ⟨(c7_widget_eq_and_patch _ _).1,
   (c7_widget_eq_and_patch _ _).2 rfl "cm-em".data⟩

/-! ### C4 -/

/-- C4: total error recovery at the widget-construction boundary.  Each failure
class is converted into a widget (the construction returns `some`, never
aborting the update cycle) whose element text is the documented literal:
the feature-flag gate yields `"(disabled; enable in settings)"` with a result
independent of the parse/execute collaborators (no parse or execute attempted);
a parse failure yields a literal starting `"Dataview (inline field"` embedding
the code and the parser's message; an execution failure yields the analogous
`"Dataview (for inline query ...)"` literal; a synchronous script exception
yields the `"Dataview (for inline JS query ...)"` literal.  The external calls
are `Result`-valued because the source wraps them in `tryOrPropogate` or
`try/catch`, so no exception propagates to the Reconciler. -/
theorem c4_total_error_recovery :
    (∀ (env : Env) (node : QNode) (file : Str),
      sliceDoc env.doc node.nTo (node.nTo + 1) ≠ ['\n'] →
      (strStartsWith (sliceDoc env.doc node.nFrom node.nTo) env.settings.inlineQueryPrefix
          && !env.settings.enableInlineDataview
        || strStartsWith (sliceDoc env.doc node.nFrom node.nTo) env.settings.inlineJsQueryPrefix
          && !env.settings.enableInlineDataviewJs) = true →
      createQueryWidget env node file
        = some { dFrom := node.nFrom - 1, dTo := node.nTo + 1,
                 value := DecoValue.replace
                   { cssClasses := getCssClasses node.props, sourceString := [],
                     el := { classes := ["dataview".data, "dataview-inline".data],
                             text := ElText.literal "(disabled; enable in settings)".data } } })
    ∧ (∀ (env : Env) (node : QNode) (file : Str) (code err : Str),
      sliceDoc env.doc node.nTo (node.nTo + 1) ≠ ['\n'] →
      strStartsWith (sliceDoc env.doc node.nFrom node.nTo) env.settings.inlineQueryPrefix
        = true →
      (strStartsWith (sliceDoc env.doc node.nFrom node.nTo) env.settings.inlineQueryPrefix
          && !env.settings.enableInlineDataview
        || strStartsWith (sliceDoc env.doc node.nFrom node.nTo) env.settings.inlineJsQueryPrefix
          && !env.settings.enableInlineDataviewJs) = false →
      code = jsTrim ((sliceDoc env.doc node.nFrom node.nTo).drop
        env.settings.inlineQueryPrefix.length) →
      env.parseField code = Result.failure err →
      createQueryWidget env node file
        = some { dFrom := node.nFrom - 1, dTo := node.nTo + 1,
                 value := DecoValue.replace
                   { cssClasses := getCssClasses node.props, sourceString := code,
                     el := { classes := ["dataview".data, "dataview-inline".data],
                             text := ElText.literal ("Dataview (inline field \x27".data
                               ++ code ++ "\x27): ".data ++ err) } } })
    ∧ (∀ (env : Env) (node : QNode) (file : Str) (code fieldValue err : Str),
      sliceDoc env.doc node.nTo (node.nTo + 1) ≠ ['\n'] →
      strStartsWith (sliceDoc env.doc node.nFrom node.nTo) env.settings.inlineQueryPrefix
        = true →
      (strStartsWith (sliceDoc env.doc node.nFrom node.nTo) env.settings.inlineQueryPrefix
          && !env.settings.enableInlineDataview
        || strStartsWith (sliceDoc env.doc node.nFrom node.nTo) env.settings.inlineJsQueryPrefix
          && !env.settings.enableInlineDataviewJs) = false →
      code = jsTrim ((sliceDoc env.doc node.nFrom node.nTo).drop
        env.settings.inlineQueryPrefix.length) →
      env.parseField code = Result.success fieldValue →
      env.executeInline fieldValue file = Result.failure err →
      createQueryWidget env node file
        = some { dFrom := node.nFrom - 1, dTo := node.nTo + 1,
                 value := DecoValue.replace
                   { cssClasses := getCssClasses node.props, sourceString := code,
                     el := { classes := ["dataview".data, "dataview-inline".data],
                             text := ElText.literal ("Dataview (for inline query \x27".data
                               ++ fieldValue ++ "\x27): ".data ++ err) } } })
    ∧ (∀ (env : Env) (node : QNode) (file : Str) (code err : Str),
      sliceDoc env.doc node.nTo (node.nTo + 1) ≠ ['\n'] →
      strStartsWith (sliceDoc env.doc node.nFrom node.nTo) env.settings.inlineQueryPrefix
        = false →
      strStartsWith (sliceDoc env.doc node.nFrom node.nTo) env.settings.inlineJsQueryPrefix
        = true →
      env.settings.enableInlineDataviewJs = true →
      code = jsTrim ((sliceDoc env.doc node.nFrom node.nTo).drop
        env.settings.inlineJsQueryPrefix.length) →
      strIncludes "await".data code = false →
      env.evalJs (PREAMBLE ++ code) = Result.failure err →
      createQueryWidget env node file
        = some { dFrom := node.nFrom - 1, dTo := node.nTo + 1,
                 value := DecoValue.replace
                   { cssClasses := getCssClasses node.props, sourceString := code,
                     el := { classes := ["dataview".data, "dataview-inline".data],
                             text := ElText.literal ("Dataview (for inline JS query \x27".data
                               ++ code ++ "\x27): ".data ++ err) } } }) := by
  refine ⟨?_, ?_, ?_, ?_⟩
  · intro env node file hnl hdis
    have hQ : (!(strStartsWith (sliceDoc env.doc node.nFrom node.nTo)
          env.settings.inlineQueryPrefix)
        && !(strStartsWith (sliceDoc env.doc node.nFrom node.nTo)
          env.settings.inlineJsQueryPrefix)) = false := by
      cases h1 : strStartsWith (sliceDoc env.doc node.nFrom node.nTo)
          env.settings.inlineQueryPrefix with
      | true => simp
      | false =>
        cases h2 : strStartsWith (sliceDoc env.doc node.nFrom node.nTo)
            env.settings.inlineJsQueryPrefix with
        | true => simp
        | false =>
          rw [h1, h2] at hdis
          simp at hdis
    simp [createQueryWidget, hnl, hQ, hdis]
  · intro env node file code err hnl hq hdis hcode hparse
    subst hcode
    simp only [hq, Bool.true_and] at hdis
    simp [createQueryWidget, hnl, hq, hdis, hparse]
  · intro env node file code fieldValue err hnl hq hdis hcode hparse hexec
    subst hcode
    simp only [hq, Bool.true_and] at hdis
    simp [createQueryWidget, hnl, hq, hdis, hparse, hexec]
  · intro env node file code err hnl hq hjs hejs hcode hawait heval
    subst hcode
    simp [createQueryWidget, hnl, hq, hjs, hejs, hawait, heval]

/-- Witness for C4: the four failure classes at concrete inputs — feature flag
off, parse failure, execution failure, synchronous JS failure. -/
theorem c4_witness :
    (createQueryWidget
        { env0 with settings := { settings0 with enableInlineDataview := false } }
        { nFrom := 10, nTo := 13, props := ["inline-code".data] } "f.md".data
      = some { dFrom := 9, dTo := 14,
               value := DecoValue.replace
                 { cssClasses := getCssClasses ["inline-code".data], sourceString := [],
                   el := { classes := ["dataview".data, "dataview-inline".data],
                           text := ElText.literal "(disabled; enable in settings)".data } } })
    ∧ (createQueryWidget { env0 with parseField := fun _ => Result.failure "no parse".data }
        { nFrom := 10, nTo := 13, props := ["inline-code".data] } "f.md".data
      = some { dFrom := 9, dTo := 14,
               value := DecoValue.replace
                 { cssClasses := getCssClasses ["inline-code".data], sourceString := "1".data,
                   el := { classes := ["dataview".data, "dataview-inline".data],
                           text := ElText.literal ("Dataview (inline field \x27".data
                             ++ "1".data ++ "\x27): ".data ++ "no parse".data) } } })
    ∧ (createQueryWidget { env0 with executeInline := fun _ _ => Result.failure "boom".data }
        { nFrom := 10, nTo := 13, props := ["inline-code".data] } "f.md".data
      = some { dFrom := 9, dTo := 14,
               value := DecoValue.replace
                 { cssClasses := getCssClasses ["inline-code".data], sourceString := "1".data,
                   el := { classes := ["dataview".data, "dataview-inline".data],
                           text := ElText.literal ("Dataview (for inline query \x27".data
                             ++ "1".data ++ "\x27): ".data ++ "boom".data) } } })
    ∧ (createQueryWidget
        { env0 with doc := "aaaaaaaaaa$=z abc".data,
                    evalJs := fun _ => Result.failure "err1".data }
        { nFrom := 10, nTo := 14, props := ["inline-code".data] } "f.md".data
      = some { dFrom := 9, dTo := 15,
               value := DecoValue.replace
                 { cssClasses := getCssClasses ["inline-code".data], sourceString := "z".data,
                   el := { classes := ["dataview".data, "dataview-inline".data],
                           text := ElText.literal ("Dataview (for inline JS query \x27".data
                             ++ "z".data ++ "\x27): ".data ++ "err1".data) } } }) := by
  refine ⟨?_, ?_, ?_, ?_⟩
  · exact c4_total_error_recovery.1 _ _ _ (by decide) (by decide)
  · exact c4_total_error_recovery.2.1 _ _ _ "1".data "no parse".data
      (by decide) (by decide) (by decide) (by decide) rfl
  · exact c4_total_error_recovery.2.2.1 _ _ _ "1".data "1".data "boom".data
      (by decide) (by decide) (by decide) (by decide) rfl rfl
  · exact c4_total_error_recovery.2.2.2 _ _ _ "z".data "err1".data
      (by decide) (by decide) (by decide) rfl (by decide) (by decide) rfl

/-! ### C8 -/

/-- Same environment with the page index's `initialized` flag replaced. -/
def setInit (env : Env) (b : Bool) : Env := { env with index := { initialized := b } }

/-- The field loop is insensitive to the index flag. -/
theorem processFields_setInit (env : Env) (b : Bool) (line : Line)
    (fs : List (Option InlineField)) :
    ∀ S : Store, processFields (setInit env b) line S fs = processFields env line S fs := by
  induction fs with
  | nil => intro S; rfl
  | cons f rest ih =>
    intro S
    cases f with
    | none => rfl
    | some f =>
      show processFields (setInit env b) line (processField (setInit env b) line S f) rest = _
      have hstep : processField (setInit env b) line S f = processField env line S f := rfl
      rw [hstep, ih]
      rfl

/-- Per-line field handling is insensitive to the index flag. -/
theorem processLine_setInit (env : Env) (b : Bool) (S : Store) (line : Line) :
    processLine (setInit env b) S line = processLine env S line := by
  show processFields (setInit env b) line S (lineFieldsList (setInit env b) line) = _
  have h : lineFieldsList (setInit env b) line = lineFieldsList env line := rfl
  rw [h, processFields_setInit]
  rfl

/-- C8 counterexample: with `initialized = false`, an active file, live
preview, and one visible query node below the caret-free region, a
selection-changed reconciliation pass still inserts a decoration — the final
revision's `update`/`updateTree` path never consults the readiness flag (the
same pass also runs at construction). -/
theorem c8_counterexample :
    ({ env0 with index := { initialized := false },
                 selection := [{ rFrom := 0, rTo := 0 }],
                 nodes := [{ nFrom := 10, nTo := 13,
                             props := ["inline-code".data] }] } : Env).index.initialized = false
      ∧ update
          { env0 with index := { initialized := false },
                      selection := [{ rFrom := 0, rTo := 0 }],
                      nodes := [{ nFrom := 10, nTo := 13, props := ["inline-code".data] }] }
          id { docChanged := false, selectionSet := true, viewportChanged := false } [] ≠ []
      ∧ construct
          { env0 with index := { initialized := false },
                      selection := [{ rFrom := 0, rTo := 0 }],
                      nodes := [{ nFrom := 10, nTo := 13, props := ["inline-code".data] }] }
        ≠ [] := by
  refine ⟨rfl, by decide, by decide⟩

/-- C8 amended: the `initialized` readiness gate exists only in the earlier
revision's from-scratch render path (`inlineQueryRender`, used by its
constructor and viewport branch), which returns nothing while the flag is
false; the final revision's reconciliation paths never consult the flag — the
store produced by `updateTree` and by every `update` branch is identical for
any value of the flag (so decorations are added regardless of index
readiness). -/
theorem c8_index_readiness_gate (env : Env) :
    (env.index.initialized = false → inlineQueryRender env = none)
    ∧ (∀ (b : Bool) (S : Store), updateTree (setInit env b) S = updateTree env S)
    ∧ (∀ (b : Bool) (changes : Int → Int) (flags : UpdateFlags) (S : Store),
        update (setInit env b) changes flags S = update env changes flags S) := by
  have htree : ∀ (b : Bool) (S : Store), updateTree (setInit env b) S = updateTree env S := by
    intro b S
    unfold updateTree
    have h1 : processLine (setInit env b) = processLine env := by
      funext S line
      exact processLine_setInit env b S line
    have h2 : processQueryNode (setInit env b) = processQueryNode env := rfl
    rw [h1, h2]
    rfl
  refine ⟨?_, htree, ?_⟩
  · intro h
    simp [inlineQueryRender, h]
  · intro b changes flags S
    unfold update
    simp only [htree]

/-- Witness for C8 at a concrete uninitialized environment. -/
theorem c8_witness :
    inlineQueryRender { env0 with index := { initialized := false } } = none
      ∧ updateTree (setInit { env0 with index := { initialized := false } } true) []
          = updateTree { env0 with index := { initialized := false } } []
      ∧ update (setInit { env0 with index := { initialized := false } } true) id
            { docChanged := false, selectionSet := true, viewportChanged := false } []
          = update { env0 with index := { initialized := false } } id
            { docChanged := false, selectionSet := true, viewportChanged := false } [] :=
  ⟨(c8_index_readiness_gate _).1 rfl,
   (c8_index_readiness_gate _).2.1 true [],
   (c8_index_readiness_gate _).2.2 true id _ []⟩

/-! ### C2 -/

/-- Two decorations' ranges overlap in more than a point. -/
def properOverlap (d1 d2 : Deco) : Prop := d1.dFrom < d2.dTo ∧ d2.dFrom < d1.dTo

/-- Exclusion relation between store entries: two Replace-decorations never
properly overlap (marks are unconstrained). -/
def ReplaceSep (d1 d2 : Deco) : Prop :=
  d1.value.isReplace = true → d2.value.isReplace = true → ¬ properOverlap d1 d2

/-- The mutual-exclusion invariant of the Decoration Store. -/
def StoreInv (S : Store) : Prop := S.Pairwise ReplaceSep

theorem replaceSep_symm (d1 d2 : Deco) : ReplaceSep d1 d2 → ReplaceSep d2 d1 :=
  fun h h2 h1 hov => h h1 h2 ⟨hov.2, hov.1⟩

theorem storeInv_filter (S : Store) (p : Deco → Bool) (hS : StoreInv S) :
    StoreInv (S.filter p) :=
  hS.sublist (List.filter_sublist S)

theorem storeInv_removeQueryDecorator (S : Store) (n : QNode) (hS : StoreInv S) :
    StoreInv (removeQueryDecorator S n) := by
  rw [removeQueryDecorator_filter]
  exact storeInv_filter S _ hS

theorem storeInv_removeFieldDecorator (S : Store) (line : Line) (field : InlineField)
    (hS : StoreInv S) : StoreInv (removeFieldDecorator S line field) := by
  rw [removeFieldDecorator_filter]
  exact storeInv_filter S _ hS

/-- Membership after a sorted insertion. -/
theorem mem_insertSorted (S : Store) (d x : Deco) :
    x ∈ insertSorted S d ↔ x = d ∨ x ∈ S := by
  induction S with
  | nil => simp [insertSorted]
  | cons e rest ih =>
    rw [insertSorted]
    split
    · simp [List.mem_cons]
    · simp [List.mem_cons, ih]
      tauto

/-- Pairwise-ness survives a sorted insertion of a compatible element. -/
theorem pairwise_insertSorted {R : Deco → Deco → Prop}
    (hsymm : ∀ a b, R a b → R b a) (S : Store) (d : Deco)
    (hS : S.Pairwise R) (hd : ∀ e ∈ S, R d e) :
    (insertSorted S d).Pairwise R := by
  induction S with
  | nil => simp [insertSorted, hS]
  | cons e rest ih =>
    rcases List.pairwise_cons.mp hS with ⟨he, hrest⟩
    rw [insertSorted]
    split
    · exact List.pairwise_cons.mpr ⟨fun x hx => by
        rcases List.mem_cons.mp hx with rfl | hx'
        · exact hd x (List.mem_cons_self _ _)
        · exact hd x (List.mem_cons_of_mem _ hx'), hS⟩
    · refine List.pairwise_cons.mpr ⟨fun x hx => ?_, ?_⟩
      · rcases (mem_insertSorted rest d x).mp hx with rfl | hx'
        · exact hsymm _ _ (hd e (List.mem_cons_self _ _))
        · exact he x hx'
      · exact ih hrest (fun e' he' => hd e' (List.mem_cons_of_mem _ he'))

/-- Inserting only marks keeps the invariant. -/
theorem storeInv_updateAdd_marks (new : List Deco) :
    ∀ S : Store, StoreInv S → (∀ d ∈ new, d.value.isReplace = false) →
      StoreInv (updateAdd S new) := by
  induction new with
  | nil => intro S hS _; exact hS
  | cons d rest ih =>
    intro S hS hmarks
    show StoreInv (updateAdd (insertSorted S d) rest)
    refine ih (insertSorted S d) ?_ (fun x hx => hmarks x (List.mem_cons_of_mem _ hx))
    refine pairwise_insertSorted replaceSep_symm S d hS (fun e _ => ?_)
    intro h1
    rw [hmarks d (List.mem_cons_self _ _)] at h1
    exact absurd h1 (by simp)

/-- Every decoration produced by the source-mode field decorator is a mark. -/
theorem createFieldDecoratorSourceMode_marks (env : Env) (line : Line) (field : InlineField) :
    ∀ d ∈ createFieldDecoratorSourceMode env line field, d.value.isReplace = false := by
  intro d hd
  simp only [createFieldDecoratorSourceMode] at hd
  split_ifs at hd <;>
    simp only [List.cons_append, List.nil_append, List.append_nil] at hd <;>
    fin_cases hd <;> rfl

/-- A created query widget decoration spans exactly the widened node range and
is a Replace-decoration. -/
theorem createQueryWidget_range (env : Env) (node : QNode) (file : Str) (deco : Deco)
    (h : createQueryWidget env node file = some deco) :
    deco.dFrom = node.nFrom - 1 ∧ deco.dTo = node.nTo + 1
      ∧ deco.value.isReplace = true := by
  simp only [createQueryWidget] at h
  split at h
  · exact absurd h (by simp)
  · split at h
    · exact absurd h (by simp)
    · cases Option.some.inj h
      exact ⟨rfl, rfl, rfl⟩

theorem storeInv_addQueryDecorator (env : Env) (S : Store) (node : QNode)
    (hS : StoreInv S) : StoreInv (addQueryDecorator env S node) := by
  by_cases hex : storeHasBetween S (node.nFrom - 1) (node.nTo + 1) = true
  · rw [addQueryDecorator, if_pos hex]
    exact hS
  · rw [addQueryDecorator, if_neg hex]
    cases hcf : env.currentFile with
    | none => exact hS
    | some file =>
      show StoreInv (match createQueryWidget env node file with
        | none => S
        | some deco => updateAdd S [deco])
      cases hw : createQueryWidget env node file with
      | none => exact hS
      | some deco =>
        show StoreInv (insertSorted S deco)
        obtain ⟨h1, h2, _⟩ := createQueryWidget_range env node file deco hw
        refine pairwise_insertSorted replaceSep_symm S deco hS (fun e he => ?_)
        intro _ _ hov
        rw [Bool.not_eq_true, storeHasBetween, List.any_eq_false] at hex
        have := hex e he
        rw [decoTouches] at this
        simp only [Bool.and_eq_true, decide_eq_true_eq, not_and] at this
        rw [properOverlap, h1, h2] at hov
        omega

theorem storeInv_addFieldDecorator (env : Env) (S : Store) (line : Line)
    (field : InlineField) (hS : StoreInv S) :
    StoreInv (addFieldDecorator env S line field) := by
  unfold addFieldDecorator
  split
  · exact hS
  · cases hcf : env.currentFile with
    | none => exact hS
    | some file =>
      show StoreInv (updateAdd S (if env.livepreview then
        createFieldDecoratorLivePreview env line field
        else createFieldDecoratorSourceMode env line field))
      by_cases hlp : env.livepreview = true
      · simp only [hlp, if_true]
        exact hS
      · rw [if_neg hlp]
        exact storeInv_updateAdd_marks _ S hS
          (createFieldDecoratorSourceMode_marks env line field)

theorem storeInv_processField (env : Env) (line : Line) (S : Store) (field : InlineField)
    (hS : StoreInv S) : StoreInv (processField env line S field) := by
  unfold processField
  split
  · exact storeInv_removeFieldDecorator S line field hS
  · exact storeInv_addFieldDecorator env S line field hS

theorem storeInv_processFields (env : Env) (line : Line)
    (fs : List (Option InlineField)) :
    ∀ S : Store, StoreInv S → StoreInv (processFields env line S fs) := by
  induction fs with
  | nil => intro S hS; exact hS
  | cons o rest ih =>
    intro S hS
    cases o with
    | none => exact hS
    | some f => exact ih _ (storeInv_processField env line S f hS)

theorem storeInv_processLine (env : Env) (S : Store) (line : Line) (hS : StoreInv S) :
    StoreInv (processLine env S line) :=
  storeInv_processFields env line _ S hS

theorem storeInv_processQueryNode (env : Env) (S : Store) (node : QNode)
    (hS : StoreInv S) : StoreInv (processQueryNode env S node) := by
  unfold processQueryNode
  split
  · exact storeInv_removeQueryDecorator S node hS
  · split
    · exact storeInv_addQueryDecorator env S node hS
    · exact hS

theorem storeInv_foldl {α : Type} (step : Store → α → Store)
    (hstep : ∀ (S : Store) (a : α), StoreInv S → StoreInv (step S a)) :
    ∀ (l : List α) (S : Store), StoreInv S → StoreInv (l.foldl step S) := by
  intro l
  induction l with
  | nil => intro S hS; exact hS
  | cons a rest ih => intro S hS; exact ih _ (hstep S a hS)

theorem storeInv_updateTree (env : Env) (S : Store) (hS : StoreInv S) :
    StoreInv (updateTree env S) := by
  unfold updateTree
  have h1 : StoreInv (env.lines.foldl (processLine env) S) :=
    storeInv_foldl (processLine env) (fun S' l hS' => storeInv_processLine env S' l hS')
      env.lines S hS
  split
  · exact h1
  · exact storeInv_foldl (processQueryNode env)
      (fun S' n hS' => storeInv_processQueryNode env S' n hS') env.nodes _ h1

theorem storeInv_mapDecos (f : Int → Int)
    (hmono : ∀ x y : Int, x ≤ y → f x ≤ f y) (S : Store) (hS : StoreInv S) :
    StoreInv (mapDecos f S) := by
  rw [StoreInv, mapDecos, List.pairwise_map]
  refine hS.imp ?_
  intro a b hab h1 h2 hov
  rw [properOverlap] at hov
  simp only at hov h1 h2
  have hna : ¬ properOverlap a b := hab h1 h2
  rw [properOverlap] at hna
  have hd : b.dTo ≤ a.dFrom ∨ a.dTo ≤ b.dFrom := by omega
  rcases hd with hd | hd
  · exact absurd hov.1 (by have := hmono _ _ hd; omega)
  · exact absurd hov.2 (by have := hmono _ _ hd; omega)

theorem storeInv_update (env : Env) (changes : Int → Int) (flags : UpdateFlags)
    (S : Store) (hmono : ∀ x y : Int, x ≤ y → changes x ≤ changes y)
    (hS : StoreInv S) : StoreInv (update env changes flags S) := by
  unfold update
  split
  · exact storeInv_updateTree env _ (storeInv_mapDecos changes hmono S hS)
  · split
    · exact storeInv_updateTree env S hS
    · split
      · exact storeInv_updateTree env [] (by simp [StoreInv])
      · exact hS

/-- Every reachable store satisfies the mutual-exclusion invariant. -/
theorem storeInv_reach (S : Store) (h : Reach S) : StoreInv S := by
  induction h with
  | init env => exact storeInv_updateTree env [] (by simp [StoreInv])
  | step env changes flags S hmono _ ih => exact storeInv_update env changes flags S hmono ih

/-- C2: in every reachable state of the Decoration Store there are never two
Replace-decorations (two distinct entries) whose ranges both fully cover the
same nonempty span, and the insert operations decline when any decoration
already intersects the target range (the existence check of
`addQueryDecorator` / `addFieldDecorator`). -/
theorem c2_mutual_exclusion :
    (∀ S : Store, Reach S → ∀ s e : Int, s < e →
      ¬ ∃ d1 d2 : Deco, List.Sublist [d1, d2] S ∧ d1.value.isReplace = true
          ∧ d2.value.isReplace = true ∧ decoCovers d1 s e = true ∧ decoCovers d2 s e = true)
    ∧ (∀ (env : Env) (S : Store) (node : QNode),
        storeHasBetween S (node.nFrom - 1) (node.nTo + 1) = true →
        addQueryDecorator env S node = S)
    ∧ (∀ (env : Env) (S : Store) (line : Line) (field : InlineField),
        storeHasBetween S (line.lineFrom + field.start) (line.lineFrom + field.fieldEnd)
          = true →
        addFieldDecorator env S line field = S) := by
  refine ⟨?_, ?_, ?_⟩
  · rintro S hS s e hse ⟨d1, d2, hsub, hr1, hr2, hc1, hc2⟩
    have hpair : List.Pairwise ReplaceSep [d1, d2] := (storeInv_reach S hS).sublist hsub
    have hsep : ReplaceSep d1 d2 :=
      (List.pairwise_cons.mp hpair).1 d2 (List.mem_cons_self _ _)
    simp only [decoCovers, Bool.and_eq_true, decide_eq_true_eq] at hc1 hc2
    exact hsep hr1 hr2 (by rw [properOverlap]; omega)
  · intro env S node hex
    rw [addQueryDecorator, if_pos hex]
  · intro env S line field hex
    rw [addFieldDecorator, if_pos hex]

/-- Witness for C2 at a concrete reachable store, span, and insert calls. -/
theorem c2_witness :
    (¬ ∃ d1 d2 : Deco, List.Sublist [d1, d2] (construct env0) ∧ d1.value.isReplace = true
        ∧ d2.value.isReplace = true ∧ decoCovers d1 0 1 = true ∧ decoCovers d2 0 1 = true)
      ∧ addQueryDecorator env0 staleStore { nFrom := 15, nTo := 16, props := [] } = staleStore
      ∧ addFieldDecorator env0 staleStore { lineFrom := 0, text := [] }
          { start := 14, startValue := 17, fieldEnd := 20, wrapping := some "[".data,
            key := "k".data, value := "v".data } = staleStore :=
  ⟨c2_mutual_exclusion.1 (construct env0) (Reach.init env0) 0 1 (by decide),
   c2_mutual_exclusion.2.1 env0 staleStore _ (by decide),
   c2_mutual_exclusion.2.2 env0 staleStore _ _ (by decide)⟩

/-! ### C1 -/

/-- The sub-list of store decorations touching `[a, b]`. -/
def touching (S : Store) (a b : Int) : Store := S.filter (fun d => decoTouches d a b)

/-- All ranges in the store are well-formed (`from ≤ to`). -/
def wfStore (S : Store) : Prop := ∀ d ∈ S, d.dFrom ≤ d.dTo

/-- Interval `[ia, ib]` is separated from `[ta, tb]`: they do not touch, even
at endpoints (so `between`-style iteration over one never sees the other). -/
def Sep (ia ib ta tb : Int) : Prop := ib < ta ∨ tb < ia

/-- Well-formedness of a field span as produced by the scanner for a
`key::value` field: at least the opening delimiter/key boundary before the
`::` separator and at least the closing delimiter after the value start. -/
def fieldWf (field : InlineField) : Prop :=
  field.start + 3 ≤ field.startValue ∧ field.startValue + 1 ≤ field.fieldEnd

theorem touching_filter (S : Store) (p : Deco → Bool) (a b : Int) :
    touching (S.filter p) a b = (touching S a b).filter p := by
  rw [touching, touching, List.filter_comm]

theorem wfStore_filter (S : Store) (p : Deco → Bool) (h : wfStore S) :
    wfStore (S.filter p) :=
  fun d hd => h d (List.mem_filter.mp hd).1

theorem wfStore_insertSorted (S : Store) (d : Deco) (hS : wfStore S)
    (hd : d.dFrom ≤ d.dTo) : wfStore (insertSorted S d) := by
  intro x hx
  rcases (mem_insertSorted S d x).mp hx with rfl | hx'
  · exact hd
  · exact hS x hx'

theorem touching_insertSorted_of_not (S : Store) (d : Deco) (a b : Int)
    (hd : decoTouches d a b = false) :
    touching (insertSorted S d) a b = touching S a b := by
  induction S with
  | nil => simp [insertSorted, touching, List.filter_cons, hd]
  | cons e rest ih =>
    rw [insertSorted]
    split
    · simp [touching, List.filter_cons, hd]
    · simp only [touching, List.filter_cons] at *
      cases he : decoTouches e a b <;> simp [he, ih]

theorem touching_insertSorted_of_touch (S : Store) (d : Deco) (a b : Int)
    (hd : decoTouches d a b = true) (hS : touching S a b = []) :
    touching (insertSorted S d) a b = [d] := by
  induction S with
  | nil => simp [insertSorted, touching, List.filter_cons, hd]
  | cons e rest ih =>
    have hS' : decoTouches e a b = false ∧ touching rest a b = [] := by
      by_cases he : decoTouches e a b = true
      · exact absurd hS (by simp [touching, List.filter_cons, he])
      · rw [Bool.not_eq_true] at he
        refine ⟨he, ?_⟩
        simpa [touching, List.filter_cons, he] using hS
    have h2 := hS'.2
    rw [touching] at h2
    rw [insertSorted]
    split
    · simp [touching, List.filter_cons, hd, hS'.1, h2]
    · simp only [touching, List.filter_cons, hS'.1]
      simpa [touching] using ih hS'.2

/-- A decoration contained in an interval separated from `[ta, tb]` does not
touch `[ta, tb]`. -/
theorem decoTouches_false_of_sep (d : Deco) (ia ib ta tb : Int)
    (h1 : ia ≤ d.dFrom) (h2 : d.dTo ≤ ib) (hsep : Sep ia ib ta tb) :
    decoTouches d ta tb = false := by
  apply Bool.eq_false_iff.mpr
  intro hcontr
  simp only [decoTouches, Bool.and_eq_true, decide_eq_true_eq] at hcontr
  rw [Sep] at hsep
  omega

theorem storeHasBetween_false_iff (S : Store) (a b : Int) :
    storeHasBetween S a b = false ↔ touching S a b = [] := by
  rw [storeHasBetween, List.any_eq_false, touching, List.filter_eq_nil_iff]

/-- A removal whose interval is separated from `[ta, tb]` leaves the touching
sub-list unchanged, provided every decoration touching `[ta, tb]` spans
exactly `[ta, tb]` (then no removal window can reach it). -/
theorem touching_removal_sep (S : Store) (ia ib ta tb : Int)
    (hsep : Sep ia ib ta tb)
    (hT : ∀ r ∈ touching S ta tb, r.dFrom = ta ∧ r.dTo = tb) :
    touching (S.filter (fun r => !(S.any (fun d =>
        decoTouches d ia ib && decoTouches r d.dFrom d.dTo)))) ta tb
      = touching S ta tb := by
  rw [touching_filter]
  apply List.filter_eq_self.mpr
  intro r hr
  obtain ⟨hra, hrb⟩ := hT r hr
  rw [Bool.not_eq_true', List.any_eq_false]
  intro d hdS hcontr
  rw [Bool.and_eq_true] at hcontr
  obtain ⟨hd1, hd2⟩ := hcontr
  have hdT : decoTouches d ta tb = true := by
    simp only [decoTouches, Bool.and_eq_true, decide_eq_true_eq] at hd2 ⊢
    omega
  obtain ⟨hda, hdb⟩ := hT d (List.mem_filter.mpr ⟨hdS, hdT⟩)
  simp only [decoTouches, Bool.and_eq_true, decide_eq_true_eq] at hd1
  rw [Sep] at hsep
  omega

/-- Inserting only decorations that do not touch `[ta, tb]` leaves the
touching sub-list unchanged. -/
theorem touching_updateAdd_sep (ta tb : Int) :
    ∀ new : List Deco, (∀ d ∈ new, decoTouches d ta tb = false) →
      ∀ S : Store, touching (updateAdd S new) ta tb = touching S ta tb := by
  intro new
  induction new with
  | nil => intro _ S; rfl
  | cons d rest ih =>
    intro hnew S
    show touching (updateAdd (insertSorted S d) rest) ta tb = _
    rw [ih (fun x hx => hnew x (List.mem_cons_of_mem _ hx)),
      touching_insertSorted_of_not S d ta tb (hnew d (List.mem_cons_self _ _))]

theorem wfStore_updateAdd :
    ∀ new : List Deco, (∀ d ∈ new, d.dFrom ≤ d.dTo) →
      ∀ S : Store, wfStore S → wfStore (updateAdd S new) := by
  intro new
  induction new with
  | nil => intro _ S hS; exact hS
  | cons d rest ih =>
    intro hnew S hS
    show wfStore (updateAdd (insertSorted S d) rest)
    exact ih (fun x hx => hnew x (List.mem_cons_of_mem _ hx)) _
      (wfStore_insertSorted S d hS (hnew d (List.mem_cons_self _ _)))

/-- Every decoration produced by the source-mode field decorator of a
well-formed field sits inside the field's interval and is range-well-formed. -/
theorem createFieldDecoratorSourceMode_spec (env : Env) (line : Line)
    (field : InlineField) (hwf : fieldWf field) :
    ∀ d ∈ createFieldDecoratorSourceMode env line field,
      line.lineFrom + field.start ≤ d.dFrom ∧ d.dTo ≤ line.lineFrom + field.fieldEnd
        ∧ d.dFrom ≤ d.dTo := by
  obtain ⟨hwf1, hwf2⟩ := hwf
  intro d hd
  simp only [createFieldDecoratorSourceMode] at hd
  split_ifs at hd <;>
    simp only [List.cons_append, List.nil_append, List.append_nil] at hd <;>
    fin_cases hd <;>
    refine ⟨by simp <;> omega, by simp <;> omega, by simp <;> omega⟩

/-- Under the unterminated-code guard and a recognized prefix, the widget is
always created. -/
theorem createQueryWidget_ne_none (env : Env) (node : QNode) (file : Str)
    (hnl : sliceDoc env.doc node.nTo (node.nTo + 1) ≠ ['\n'])
    (hq : isInlineQueryCheck env node.nFrom node.nTo = true) :
    createQueryWidget env node file ≠ none := by
  have hq' : (strStartsWith (sliceDoc env.doc node.nFrom node.nTo)
        env.settings.inlineQueryPrefix
      || strStartsWith (sliceDoc env.doc node.nFrom node.nTo)
        env.settings.inlineJsQueryPrefix) = true := hq
  have hcond : (!(strStartsWith (sliceDoc env.doc node.nFrom node.nTo)
        env.settings.inlineQueryPrefix)
      && !(strStartsWith (sliceDoc env.doc node.nFrom node.nTo)
        env.settings.inlineJsQueryPrefix)) = false := by
    cases h1 : strStartsWith (sliceDoc env.doc node.nFrom node.nTo)
        env.settings.inlineQueryPrefix
    · cases h2 : strStartsWith (sliceDoc env.doc node.nFrom node.nTo)
          env.settings.inlineJsQueryPrefix
      · rw [h1, h2] at hq'
        simp at hq'
      · simp [h2]
    · simp [h1]
  simp [createQueryWidget, hnl, hcond]

theorem pres_removeFieldDecorator (S : Store) (line : Line) (field : InlineField)
    (ta tb : Int) (C : Store)
    (hsep : Sep (line.lineFrom + field.start) (line.lineFrom + field.fieldEnd) ta tb)
    (hCT : ∀ r ∈ C, r.dFrom = ta ∧ r.dTo = tb)
    (hP : touching S ta tb = C ∧ wfStore S) :
    touching (removeFieldDecorator S line field) ta tb = C
      ∧ wfStore (removeFieldDecorator S line field) := by
  rw [removeFieldDecorator_filter]
  refine ⟨?_, wfStore_filter S _ hP.2⟩
  rw [touching_removal_sep S _ _ ta tb hsep (fun r hr => hCT r (hP.1 ▸ hr))]
  exact hP.1

theorem pres_removeQueryDecorator (S : Store) (n : QNode) (ta tb : Int) (C : Store)
    (hsep : Sep (n.nFrom - 1) (n.nTo + 1) ta tb)
    (hCT : ∀ r ∈ C, r.dFrom = ta ∧ r.dTo = tb)
    (hP : touching S ta tb = C ∧ wfStore S) :
    touching (removeQueryDecorator S n) ta tb = C
      ∧ wfStore (removeQueryDecorator S n) := by
  rw [removeQueryDecorator_filter]
  refine ⟨?_, wfStore_filter S _ hP.2⟩
  rw [touching_removal_sep S _ _ ta tb hsep (fun r hr => hCT r (hP.1 ▸ hr))]
  exact hP.1

theorem pres_addFieldDecorator (env : Env) (S : Store) (line : Line) (field : InlineField)
    (ta tb : Int) (C : Store)
    (hsep : Sep (line.lineFrom + field.start) (line.lineFrom + field.fieldEnd) ta tb)
    (hfwf : fieldWf field)
    (hP : touching S ta tb = C ∧ wfStore S) :
    touching (addFieldDecorator env S line field) ta tb = C
      ∧ wfStore (addFieldDecorator env S line field) := by
  unfold addFieldDecorator
  split
  · exact hP
  · cases env.currentFile with
    | none => exact hP
    | some file =>
      show touching (updateAdd S (if env.livepreview then
          createFieldDecoratorLivePreview env line field
          else createFieldDecoratorSourceMode env line field)) ta tb = C ∧ _
      by_cases hlp : env.livepreview = true
      · simp only [hlp, if_true]
        exact hP
      · rw [if_neg hlp]
        have hspec := createFieldDecoratorSourceMode_spec env line field hfwf
        constructor
        · rw [touching_updateAdd_sep ta tb _ (fun d hd => decoTouches_false_of_sep d _ _ ta tb
            (hspec d hd).1 (hspec d hd).2.1 hsep)]
          exact hP.1
        · exact wfStore_updateAdd _ (fun d hd => (hspec d hd).2.2) S hP.2

theorem pres_addQueryDecorator (env : Env) (S : Store) (n : QNode) (ta tb : Int) (C : Store)
    (hsep : Sep (n.nFrom - 1) (n.nTo + 1) ta tb) (hnwf : n.nFrom ≤ n.nTo)
    (hP : touching S ta tb = C ∧ wfStore S) :
    touching (addQueryDecorator env S n) ta tb = C
      ∧ wfStore (addQueryDecorator env S n) := by
  by_cases hex : storeHasBetween S (n.nFrom - 1) (n.nTo + 1) = true
  · rw [addQueryDecorator, if_pos hex]
    exact hP
  · rw [addQueryDecorator, if_neg hex]
    cases env.currentFile with
    | none => exact hP
    | some file =>
      show touching (match createQueryWidget env n file with
          | none => S
          | some deco => updateAdd S [deco]) ta tb = C
        ∧ wfStore (match createQueryWidget env n file with
          | none => S
          | some deco => updateAdd S [deco])
      cases hw : createQueryWidget env n file with
      | none => exact hP
      | some deco =>
        obtain ⟨h1, h2, _⟩ := createQueryWidget_range env n file deco hw
        show touching (insertSorted S deco) ta tb = C ∧ wfStore (insertSorted S deco)
        have hnt : decoTouches deco ta tb = false :=
          decoTouches_false_of_sep deco (n.nFrom - 1) (n.nTo + 1) ta tb (by omega) (by omega)
            hsep
        exact ⟨by rw [touching_insertSorted_of_not S deco ta tb hnt]; exact hP.1,
          wfStore_insertSorted S deco hP.2 (by omega)⟩

theorem pres_processField (env : Env) (line : Line) (field : InlineField)
    (ta tb : Int) (C : Store)
    (hsep : Sep (line.lineFrom + field.start) (line.lineFrom + field.fieldEnd) ta tb)
    (hfwf : fieldWf field) (hCT : ∀ r ∈ C, r.dFrom = ta ∧ r.dTo = tb)
    (S : Store) (hP : touching S ta tb = C ∧ wfStore S) :
    touching (processField env line S field) ta tb = C
      ∧ wfStore (processField env line S field) := by
  unfold processField
  split
  · exact pres_removeFieldDecorator S line field ta tb C hsep hCT hP
  · exact pres_addFieldDecorator env S line field ta tb C hsep hfwf hP

theorem pres_processQueryNode (env : Env) (n : QNode) (ta tb : Int) (C : Store)
    (hsep : Sep (n.nFrom - 1) (n.nTo + 1) ta tb) (hnwf : n.nFrom ≤ n.nTo)
    (hCT : ∀ r ∈ C, r.dFrom = ta ∧ r.dTo = tb)
    (S : Store) (hP : touching S ta tb = C ∧ wfStore S) :
    touching (processQueryNode env S n) ta tb = C
      ∧ wfStore (processQueryNode env S n) := by
  unfold processQueryNode
  split
  · exact pres_removeQueryDecorator S n ta tb C hsep hCT hP
  · split
    · exact pres_addQueryDecorator env S n ta tb C hsep hnwf hP
    · exact hP

theorem wf_addFieldDecorator (env : Env) (S : Store) (line : Line) (field : InlineField)
    (hfwf : fieldWf field) (hS : wfStore S) :
    wfStore (addFieldDecorator env S line field) := by
  unfold addFieldDecorator
  split
  · exact hS
  · cases env.currentFile with
    | none => exact hS
    | some file =>
      show wfStore (updateAdd S (if env.livepreview then
        createFieldDecoratorLivePreview env line field
        else createFieldDecoratorSourceMode env line field))
      by_cases hlp : env.livepreview = true
      · simp only [hlp, if_true]
        exact hS
      · rw [if_neg hlp]
        exact wfStore_updateAdd _
          (fun d hd => (createFieldDecoratorSourceMode_spec env line field hfwf d hd).2.2) S hS

theorem wf_addQueryDecorator (env : Env) (S : Store) (n : QNode)
    (hnwf : n.nFrom ≤ n.nTo) (hS : wfStore S) :
    wfStore (addQueryDecorator env S n) := by
  by_cases hex : storeHasBetween S (n.nFrom - 1) (n.nTo + 1) = true
  · rw [addQueryDecorator, if_pos hex]
    exact hS
  · rw [addQueryDecorator, if_neg hex]
    cases env.currentFile with
    | none => exact hS
    | some file =>
      show wfStore (match createQueryWidget env n file with
        | none => S
        | some deco => updateAdd S [deco])
      cases hw : createQueryWidget env n file with
      | none => exact hS
      | some deco =>
        obtain ⟨h1, h2, _⟩ := createQueryWidget_range env n file deco hw
        show wfStore (insertSorted S deco)
        exact wfStore_insertSorted S deco hS (by omega)

theorem wf_processField (env : Env) (line : Line) (field : InlineField)
    (hfwf : fieldWf field) (S : Store) (hS : wfStore S) :
    wfStore (processField env line S field) := by
  unfold processField
  split
  · rw [removeFieldDecorator_filter]
    exact wfStore_filter S _ hS
  · exact wf_addFieldDecorator env S line field hfwf hS

theorem wf_processQueryNode (env : Env) (n : QNode) (hnwf : n.nFrom ≤ n.nTo)
    (S : Store) (hS : wfStore S) : wfStore (processQueryNode env S n) := by
  unfold processQueryNode
  split
  · rw [removeQueryDecorator_filter]
    exact wfStore_filter S _ hS
  · split
    · exact wf_addQueryDecorator env S n hnwf hS
    · exact hS

theorem foldl_preserve {α : Type} (P : Store → Prop) (step : Store → α → Store) :
    ∀ l : List α, (∀ a ∈ l, ∀ S, P S → P (step S a)) → ∀ S, P S → P (l.foldl step S) := by
  intro l
  induction l with
  | nil => intro _ S hS; exact hS
  | cons a rest ih =>
    intro h S hS
    exact ih (fun x hx S' hS' => h x (List.mem_cons_of_mem _ hx) S' hS') _
      (h a (List.mem_cons_self _ _) S hS)

theorem processFields_preserve (P : Store → Prop) (env : Env) (line : Line) :
    ∀ fs : List (Option InlineField),
      (∀ f : InlineField, some f ∈ fs → ∀ S, P S → P (processField env line S f)) →
      ∀ S, P S → P (processFields env line S fs) := by
  intro fs
  induction fs with
  | nil => intro _ S hS; exact hS
  | cons o rest ih =>
    intro h S hS
    cases o with
    | none => exact hS
    | some f =>
      exact ih (fun x hx S' hS' => h x (List.mem_cons_of_mem _ hx) S' hS') _
        (h f (List.mem_cons_self _ _) S hS)

/-- Covering the exact span implies touching it (for a nonempty-or-point span). -/
theorem covers_filter_of_touching (S' : Store) (ta tb : Int) (hta : ta ≤ tb) (C : Store)
    (h : touching S' ta tb = C) :
    S'.filter (fun d => decoCovers d ta tb) = C.filter (fun d => decoCovers d ta tb) := by
  have himp : (fun d => decoCovers d ta tb)
      = (fun d => decoTouches d ta tb && decoCovers d ta tb) := by
    funext d
    cases hc : decoCovers d ta tb
    · simp
    · have ht : decoTouches d ta tb = true := by
        simp only [decoCovers, Bool.and_eq_true, decide_eq_true_eq] at hc
        simp only [decoTouches, Bool.and_eq_true, decide_eq_true_eq]
        omega
      simp [ht]
  calc S'.filter (fun d => decoCovers d ta tb)
      = S'.filter (fun d => decoTouches d ta tb && decoCovers d ta tb) := by rw [himp]
    _ = (touching S' ta tb).filter (fun d => decoCovers d ta tb) := by
        rw [touching, List.filter_filter]
        congr 1
        funext d
        rw [Bool.and_comm]
    _ = C.filter (fun d => decoCovers d ta tb) := by rw [h]

/-- With nothing touching the span, no Replace-decoration covers it. -/
theorem no_replace_covers (S' : Store) (ta tb : Int) (hta : ta ≤ tb)
    (h : touching S' ta tb = []) :
    S'.filter (fun d => d.value.isReplace && decoCovers d ta tb) = [] := by
  apply List.filter_eq_nil_iff.mpr
  intro d hd hcontr
  rw [Bool.and_eq_true] at hcontr
  have htouch : decoTouches d ta tb = true := by
    have hc := hcontr.2
    simp only [decoCovers, Bool.and_eq_true, decide_eq_true_eq] at hc
    simp only [decoTouches, Bool.and_eq_true, decide_eq_true_eq]
    omega
  have : d ∈ touching S' ta tb := List.mem_filter.mpr ⟨hd, htouch⟩
  rw [h] at this
  exact absurd this (List.not_mem_nil d)

/-- The inline field used by the C1 counterexample: `[k::v]` on one line. -/
def fldC1 : InlineField :=
  { start := 0, startValue := 4, fieldEnd := 6, wrapping := some "[".data,
    key := "k".data, value := "v".data }

/-- The C1 counterexample environment: live preview, initialized index, active
file, one visible line `[k::v]` whose scanner yields `fldC1`, selection far
away at offset 20, no query nodes. -/
def envC1cx : Env :=
  { env0 with selection := [{ rFrom := 20, rTo := 20 }],
              doc := "[k::v]".data,
              lines := [{ lineFrom := 0, text := "[k::v]".data }],
              extractInlineFields := fun t => if t = "[k::v]".data then [fldC1] else [] }

/-- C1 counterexample: a visible inline field in live preview whose span the
selection does not overlap, with index initialized and an active file present,
yet after the reconciliation pass not one decoration covers the field span —
`addFieldDecorator` reaches `createFieldDecoratorLivePreview`, which is
unimplemented and returns no decorations, so the store stays empty. -/
theorem c1_counterexample :
    fieldRenderInfo envC1cx { lineFrom := 0, text := "[k::v]".data } fldC1 = true
      ∧ selectionAndRangeOverlap envC1cx.selection 0 6 = false
      ∧ envC1cx.livepreview = true
      ∧ envC1cx.currentFile ≠ none
      ∧ envC1cx.index.initialized = true
      ∧ updateTree envC1cx [] = []
      ∧ ¬(((updateTree envC1cx []).filter (fun d => decoCovers d 0 6)).length = 1) := by
  exact ⟨by decide, by decide, rfl, by decide, rfl, by decide, by decide⟩

/-- C1 amended: stated for inline query spans over the final revision's
reconciliation pass.  (i) If the selection does not overlap the widened span
and the feature conditions hold (recognized prefix on an inline-code
non-formatting node, closing delimiter present, active file present) and
additionally no pre-pass decoration touches the widened span, the store is
range-well-formed, and every other visible field and query item is separated
from the span, then exactly one decoration covers the exact widened span after
the pass.  (ii) If the selection overlaps the widened span of a recognized
query node then after the pass no Replace-decoration covers that exact span
(here only the items processed after the removal need to be separated).  For
inline fields the live-preview decorator is unimplemented and installs
nothing, so the "exactly one" direction fails for fields (see the
counterexample). -/
theorem c1_selection_reveal_query_spans :
    (∀ (env : Env) (S : Store) (N1 N2 : List QNode) (X : QNode) (file : Str),
      env.livepreview = true →
      env.nodes = N1 ++ X :: N2 →
      X.nFrom ≤ X.nTo →
      queryRenderInfo env X = { render := true, isQuery := true } →
      sliceDoc env.doc X.nTo (X.nTo + 1) ≠ ['\n'] →
      env.currentFile = some file →
      touching S (X.nFrom - 1) (X.nTo + 1) = [] →
      wfStore S →
      (∀ n ∈ N1 ++ N2, Sep (n.nFrom - 1) (n.nTo + 1) (X.nFrom - 1) (X.nTo + 1)) →
      (∀ n ∈ N1 ++ N2, n.nFrom ≤ n.nTo) →
      (∀ line ∈ env.lines, ∀ f : InlineField, some f ∈ lineFieldsList env line →
        fieldWf f ∧ Sep (line.lineFrom + f.start) (line.lineFrom + f.fieldEnd)
          (X.nFrom - 1) (X.nTo + 1)) →
      ((updateTree env S).filter
        (fun d => decoCovers d (X.nFrom - 1) (X.nTo + 1))).length = 1)
    ∧ (∀ (env : Env) (S : Store) (N1 N2 : List QNode) (X : QNode),
      env.livepreview = true →
      env.nodes = N1 ++ X :: N2 →
      X.nFrom ≤ X.nTo →
      queryRenderInfo env X = { render := false, isQuery := true } →
      wfStore S →
      (∀ n ∈ env.nodes, n.nFrom ≤ n.nTo) →
      (∀ line ∈ env.lines, ∀ f : InlineField, some f ∈ lineFieldsList env line →
        fieldWf f) →
      (∀ n ∈ N2, Sep (n.nFrom - 1) (n.nTo + 1) (X.nFrom - 1) (X.nTo + 1)) →
      (updateTree env S).filter
        (fun d => d.value.isReplace && decoCovers d (X.nFrom - 1) (X.nTo + 1)) = []) := by
  constructor
  · intro env S N1 N2 X file hlp hnodes hXwf hrender hnl hfile hS0 hSwf hsepO hnwfO hfields
    have hlp' : ¬((!env.livepreview) = true) := by simp [hlp]
    rw [updateTree, if_neg hlp', hnodes, List.foldl_append, List.foldl_cons]
    have hP0 : touching (env.lines.foldl (processLine env) S) (X.nFrom - 1) (X.nTo + 1) = []
        ∧ wfStore (env.lines.foldl (processLine env) S) := by
      refine foldl_preserve
        (fun S' => touching S' (X.nFrom - 1) (X.nTo + 1) = [] ∧ wfStore S')
        (processLine env) env.lines ?_ S ⟨hS0, hSwf⟩
      intro line hline S' hP'
      show touching (processFields env line S' (lineFieldsList env line)) _ _ = [] ∧ _
      refine processFields_preserve
        (fun S'' => touching S'' (X.nFrom - 1) (X.nTo + 1) = [] ∧ wfStore S'')
        env line (lineFieldsList env line) ?_ S' hP'
      intro f hf S'' hP''
      obtain ⟨hfwf, hfsep⟩ := hfields line hline f hf
      exact pres_processField env line f _ _ [] hfsep hfwf (by simp) S'' hP''
    have hP1 : touching (N1.foldl (processQueryNode env) (env.lines.foldl (processLine env) S))
          (X.nFrom - 1) (X.nTo + 1) = []
        ∧ wfStore (N1.foldl (processQueryNode env)
            (env.lines.foldl (processLine env) S)) := by
      refine foldl_preserve
        (fun S' => touching S' (X.nFrom - 1) (X.nTo + 1) = [] ∧ wfStore S')
        (processQueryNode env) N1 ?_ _ hP0
      intro n hn S' hP'
      exact pres_processQueryNode env n _ _ [] (hsepO n (List.mem_append_left _ hn))
        (hnwfO n (List.mem_append_left _ hn)) (by simp) S' hP'
    set S1 := N1.foldl (processQueryNode env) (env.lines.foldl (processLine env) S) with hS1
    have hiq : isInlineQueryCheck env X.nFrom X.nTo = true := by
      have h := congrArg RenderInfo.isQuery hrender
      simp only [queryRenderInfo] at h
      rw [Bool.and_eq_true] at h
      exact h.2
    have hXadd : processQueryNode env S1 X = addQueryDecorator env S1 X := by
      rw [processQueryNode, hrender]
      simp
    rw [hXadd]
    have hex : ¬(storeHasBetween S1 (X.nFrom - 1) (X.nTo + 1) = true) := by
      rw [(storeHasBetween_false_iff S1 _ _).mpr hP1.1]
      simp
    rw [addQueryDecorator, if_neg hex, hfile]
    show ((N2.foldl (processQueryNode env)
      (match createQueryWidget env X file with
        | none => S1
        | some deco => updateAdd S1 [deco])).filter
          (fun d => decoCovers d (X.nFrom - 1) (X.nTo + 1))).length = 1
    cases hw : createQueryWidget env X file with
    | none => exact absurd hw (createQueryWidget_ne_none env X file hnl hiq)
    | some deco =>
      obtain ⟨h1, h2, _⟩ := createQueryWidget_range env X file deco hw
      show ((N2.foldl (processQueryNode env) (insertSorted S1 deco)).filter
        (fun d => decoCovers d (X.nFrom - 1) (X.nTo + 1))).length = 1
      have htouch : decoTouches deco (X.nFrom - 1) (X.nTo + 1) = true := by
        simp only [decoTouches, Bool.and_eq_true, decide_eq_true_eq]
        omega
      have hstep : touching (insertSorted S1 deco) (X.nFrom - 1) (X.nTo + 1) = [deco]
          ∧ wfStore (insertSorted S1 deco) :=
        ⟨touching_insertSorted_of_touch S1 deco _ _ htouch hP1.1,
         wfStore_insertSorted S1 deco hP1.2 (by omega)⟩
      have hP2 : touching (N2.foldl (processQueryNode env) (insertSorted S1 deco))
            (X.nFrom - 1) (X.nTo + 1) = [deco]
          ∧ wfStore (N2.foldl (processQueryNode env) (insertSorted S1 deco)) := by
        refine foldl_preserve
          (fun S' => touching S' (X.nFrom - 1) (X.nTo + 1) = [deco] ∧ wfStore S')
          (processQueryNode env) N2 ?_ _ hstep
        intro n hn S' hP'
        refine pres_processQueryNode env n _ _ [deco] (hsepO n (List.mem_append_right _ hn))
          (hnwfO n (List.mem_append_right _ hn)) ?_ S' hP'
        intro r hr
        rw [List.mem_singleton] at hr
        subst hr
        exact ⟨h1, h2⟩
      rw [covers_filter_of_touching _ _ _ (by omega) [deco] hP2.1]
      have hcov : decoCovers deco (X.nFrom - 1) (X.nTo + 1) = true := by
        simp only [decoCovers, Bool.and_eq_true, decide_eq_true_eq]
        omega
      simp [hcov]
  · intro env S N1 N2 X hlp hnodes hXwf hrender hSwf hnwfO hfieldswf hsepN2
    have hlp' : ¬((!env.livepreview) = true) := by simp [hlp]
    rw [updateTree, if_neg hlp', hnodes, List.foldl_append, List.foldl_cons]
    have hwf0 : wfStore (env.lines.foldl (processLine env) S) := by
      refine foldl_preserve wfStore (processLine env) env.lines ?_ S hSwf
      intro line hline S' hS'
      show wfStore (processFields env line S' (lineFieldsList env line))
      refine processFields_preserve wfStore env line (lineFieldsList env line) ?_ S' hS'
      intro f hf S'' hS''
      exact wf_processField env line f (hfieldswf line hline f hf) S'' hS''
    have hwf1 : wfStore (N1.foldl (processQueryNode env)
        (env.lines.foldl (processLine env) S)) := by
      refine foldl_preserve wfStore (processQueryNode env) N1 ?_ _ hwf0
      intro n hn S' hS'
      exact wf_processQueryNode env n
        (hnwfO n (by rw [hnodes]; exact List.mem_append_left _ hn)) S' hS'
    set S1 := N1.foldl (processQueryNode env) (env.lines.foldl (processLine env) S) with hS1
    have hXrem : processQueryNode env S1 X = removeQueryDecorator S1 X := by
      rw [processQueryNode, hrender]
      simp
    rw [hXrem]
    have hT : touching (removeQueryDecorator S1 X) (X.nFrom - 1) (X.nTo + 1) = [] := by
      rw [removeQueryDecorator_filter]
      exact removal_clears_touching S1 _ _ hwf1
    have hwfX : wfStore (removeQueryDecorator S1 X) := by
      rw [removeQueryDecorator_filter]
      exact wfStore_filter S1 _ hwf1
    have hP2 : touching (N2.foldl (processQueryNode env) (removeQueryDecorator S1 X))
          (X.nFrom - 1) (X.nTo + 1) = []
        ∧ wfStore (N2.foldl (processQueryNode env) (removeQueryDecorator S1 X)) := by
      refine foldl_preserve
        (fun S' => touching S' (X.nFrom - 1) (X.nTo + 1) = [] ∧ wfStore S')
        (processQueryNode env) N2 ?_ _ ⟨hT, hwfX⟩
      intro n hn S' hP'
      exact pres_processQueryNode env n _ _ [] (hsepN2 n hn)
        (hnwfO n (by
          rw [hnodes]
          exact List.mem_append_right _ (List.mem_cons_of_mem _ hn))) (by simp) S' hP'
    exact no_replace_covers _ _ _ (by omega) hP2.1

/-- The single query node used by the C1 witness. -/
def nodeW : QNode := { nFrom := 10, nTo := 13, props := ["inline-code".data] }

/-- C1 witness environment, conceal case: caret at 0, away from the node. -/
def envW1 : Env := { env0 with selection := [{ rFrom := 0, rTo := 0 }], nodes := [nodeW] }

/-- C1 witness environment, reveal case: caret at 14, touching the widened
range `[9, 14]`. -/
def envW2 : Env := { env0 with selection := [{ rFrom := 14, rTo := 14 }], nodes := [nodeW] }

/-- Witness for C1 at concrete conceal and reveal scenarios: one visible query
node `[10, 13]` (widened `[9, 14]`), empty pre-pass store. -/
theorem c1_witness :
    ((updateTree envW1 []).filter (fun d => decoCovers d 9 14)).length = 1
    ∧ (updateTree envW2 []).filter
        (fun d => d.value.isReplace && decoCovers d 9 14) = [] := by
  constructor
  · exact c1_selection_reveal_query_spans.1 envW1 [] [] [] nodeW "f.md".data
      rfl rfl (by decide) (by decide) (by decide) rfl rfl
      (fun d hd => absurd hd (List.not_mem_nil d))
      (by simp) (by simp) (by simp [envW1, env0])
  · exact c1_selection_reveal_query_spans.2 envW2 [] [] [] nodeW
      rfl rfl (by decide) (by decide)
      (fun d hd => absurd hd (List.not_mem_nil d))
      (by simp [envW2, nodeW]) (by simp [envW2, env0]) (by simp)

end LPRender
